import Mathlib

/-!
Verification of the authentication/authorization core of the AWS-Go-Server
repository, as a shallow embedding in Lean 4.

Conventions used throughout:
* Go strings are modelled as Lean `String` (with parsing helpers working on
  the underlying `List Char`, mirroring Go's byte-wise operations on the
  ASCII data relevant here).
* Timestamps and durations are `Int` seconds (Go `time.Time` / `time.Duration`
  comparisons are order-isomorphic to their values in seconds for the
  whole-second constants the code uses: 15 minutes = 900 s, 1 hour = 3600 s).
* Fallible Go functions returning `(T, error)` become `Except`-valued
  functions; Go `nil` pointers become `Option`.
* Third-party library calls (JWT parsing, HMAC, date parsing, the network
  fetch of the JWKS document) are modelled at their documented contract
  boundary, either as explicit function parameters or as small model
  functions; everything written by the repository itself is translated
  statement by statement from the source.
-/

/- ===== internal/auth: data model (internal/auth/models in jwt.go part) ===== -/

/-- `Permission` from internal/auth: an opaque string tag. -/
abbrev Permission := String

def PermissionReadItems : Permission := "items:read"

def PermissionWriteItems : Permission := "items:write"

def PermissionDeleteItems : Permission := "items:delete"

def PermissionAWSRead : Permission := "aws:read"

def PermissionAWSWrite : Permission := "aws:write"

def PermissionAdmin : Permission := "admin:*"

/-- `User` from internal/auth. -/
structure User where
  id : String
  email : String
  username : String
  roles : List String
  isAdmin : Bool
deriving DecidableEq, Repr

/-- `Claims` from internal/auth. -/
structure Claims where
  userID : String
  email : String
  username : String
  roles : List String
  isAdmin : Bool
  issuedAt : Int
  expiresAt : Int
deriving DecidableEq, Repr

/-- `Role` from internal/auth. -/
structure Role where
  name : String
  permissions : List Permission
deriving DecidableEq, Repr

/-- Predefined role `RoleUser`. -/
def RoleUser : Role := { name := "user", permissions := [PermissionReadItems] }

/-- Predefined role `RoleEditor`. -/
def RoleEditor : Role :=
  { name := "editor", permissions := [PermissionReadItems, PermissionWriteItems] }

/-- Predefined role `RoleAdmin`. -/
def RoleAdmin : Role :=
  { name := "admin",
    permissions := [PermissionReadItems, PermissionWriteItems, PermissionDeleteItems,
                    PermissionAWSRead, PermissionAWSWrite, PermissionAdmin] }

/-- `GetRolePermissions` from internal/auth/jwt.go: the fixed role registry;
unknown role names return the empty list. -/
def GetRolePermissions (roleName : String) : List Permission :=
  if roleName = "admin" then RoleAdmin.permissions
  else if roleName = "editor" then RoleEditor.permissions
  else if roleName = "user" then RoleUser.permissions
  else []

/-- `(*User).HasPermission` from internal/auth/jwt.go: admin short-circuits to
true; otherwise scan each held role's registry permissions for the requested
permission or the admin wildcard. -/
def User.HasPermission (u : User) (perm : Permission) : Bool :=
  if u.isAdmin then true
  else u.roles.any fun role =>
    (GetRolePermissions role).any fun p => p == perm || p == PermissionAdmin

/-- `(*User).HasAnyRole` from internal/auth/jwt.go. -/
def User.HasAnyRole (u : User) (roles : List String) : Bool :=
  u.roles.any fun userRole => roles.any fun requiredRole => userRole == requiredRole

/- ===== internal/auth/context.go ===== -/

/-- A value stored in a Go `context.Context`. The repository stores a `*User`
under its user key; values of any other dynamic type (for which the
`.(*User)` type assertion fails) are collapsed into `otherVal`. -/
inductive CtxVal where
  | userPtr (u : Option User)
  | otherVal
deriving DecidableEq

/-- A Go `context.Context` chain, innermost `WithValue` first: `Value` walks
from the innermost wrapper outward and returns the first match. -/
abbrev GoContext := List (String × CtxVal)

/-- `context.WithValue`: wrap the parent context with one key/value pair. -/
def contextWithValue (ctx : GoContext) (k : String) (v : CtxVal) : GoContext :=
  (k, v) :: ctx

/-- `ctx.Value(k)`: innermost-first lookup. -/
def contextValue (ctx : GoContext) (k : String) : Option CtxVal :=
  match ctx with
  | [] => none
  | (k', v) :: rest => if k' = k then some v else contextValue rest k

/-- `userContextKey` from internal/auth/context.go. -/
def userContextKey : String := "user"

/-- `ErrNoUserInContext` from internal/auth/context.go. -/
def ErrNoUserInContext : String := "no user found in context"

/-- `WithUser` from internal/auth/context.go. The `Option User` argument
models the Go `*User` pointer (`none` = nil pointer). -/
def WithUser (ctx : GoContext) (user : Option User) : GoContext :=
  contextWithValue ctx userContextKey (.userPtr user)

/-- `GetUser` from internal/auth/context.go: type-assert the stored value to
`*User`; fail if the assertion fails or the pointer is nil. -/
def GetUser (ctx : GoContext) : Except String User :=
  match contextValue ctx userContextKey with
  | some (.userPtr (some u)) => .ok u
  | some (.userPtr none) => .error ErrNoUserInContext
  | some .otherVal => .error ErrNoUserInContext
  | none => .error ErrNoUserInContext

/- ===== Error taxonomy (internal/auth/jwt.go and part_018) ===== -/

/-- The error values of the auth package: `ErrInvalidToken`, `ErrExpiredToken`,
`ErrInvalidSignature` from internal/auth/jwt.go, plus the wrapped
"failed to refresh JWKS cache" error produced by `CognitoService.ValidateToken`. -/
inductive AuthError where
  | invalidToken
  | expiredToken
  | invalidSignature
  | jwksRefreshFailed (msg : String)
deriving DecidableEq, Repr

/- ===== internal/middleware/auth.go: bearer Request Authenticator ===== -/

/-- Split a character list at its first space, mirroring the effect of Go's
`strings.SplitN(s, " ", 2)`: `none` when no space occurs. -/
def breakAtSpace (l : List Char) : Option (List Char × List Char) :=
  match l with
  | [] => none
  | c :: rest =>
    if c = ' ' then some ([], rest)
    else
      match breakAtSpace rest with
      | none => none
      | some (a, b) => some (c :: a, b)

/-- Go `strings.SplitN(s, " ", 2)`: `[s]` when `s` has no space, otherwise
the segment before the first space and everything after it. -/
def goSplitN2 (s : String) : List String :=
  match breakAtSpace s.data with
  | none => [s]
  | some (a, b) => [String.mk a, String.mk b]

/-- Go `strings.ToLower` restricted to its behavior on the ASCII data the
middleware compares ("Bearer" and friends). -/
def lowerStr (s : String) : String := String.mk (s.data.map Char.toLower)

/-- Outcome of an HTTP middleware: an `http.Error` rejection with status and
body, or a pass to the next handler (for the bearer authenticator, carrying
the `User` attached to the request context). -/
inductive MwOutcome where
  | reject (status : Nat) (body : String)
  | proceed (u : User)
deriving DecidableEq, Repr

/-- `Authenticate` from internal/middleware/auth.go (the per-request handler
body). The token verifier `validate` (the injected `AuthService`) is a
parameter. A missing `Authorization` header reads as `""` via `Header.Get`. -/
def Authenticate (validate : String → Except AuthError Claims)
    (authHeader : Option String) : MwOutcome :=
  let h := authHeader.getD ""
  if h = "" then .reject 401 "Unauthorized: missing authorization header"
  else
    match goSplitN2 h with
    | [scheme, token] =>
      if lowerStr scheme ≠ "bearer" then
        .reject 401 "Unauthorized: invalid authorization header format"
      else
        match validate token with
        | .error _ => .reject 401 "Unauthorized: invalid token"
        | .ok claims =>
          .proceed { id := claims.userID, email := claims.email,
                     username := claims.username, roles := claims.roles,
                     isAdmin := claims.isAdmin }
    | _ => .reject 401 "Unauthorized: invalid authorization header format"

/-- The claim's notion of a well-formed bearer header, following its words:
`Bearer <token>` with a case-insensitively compared scheme and a single
space separator (the scheme segment itself contains no space). -/
def bearerHeaderForm (h : String) : Prop :=
  ∃ scheme token : String,
    h = scheme ++ " " ++ token ∧ (' ' ∉ scheme.data) ∧ lowerStr scheme = "bearer"

/- ===== part_018 (internal/auth/cognito.go): Key-Set Cache ===== -/

/-- Verification key material of a JWKS document (opaque to this core). -/
abbrev KeySet := List String

/-- The cache-relevant state of `CognitoService`: `jwksCache` (nil until the
first successful fetch), `cacheExpiry`, and — for stating fetch-count
properties — a count of network fetches performed so far. -/
structure CognitoSvc where
  jwksURL : String
  jwksCache : Option KeySet
  cacheExpiry : Int
  fetchCount : Nat
deriving DecidableEq, Repr

/-- `NewCognitoService` from part_018: derives the JWKS endpoint URL from the
configured region and user-pool id; cache starts empty (zero time). -/
def NewCognitoService (region userPoolID : String) : CognitoSvc :=
  { jwksURL := "https://cognito-idp." ++ region ++ ".amazonaws.com/" ++ userPoolID
      ++ "/.well-known/jwks.json",
    jwksCache := none, cacheExpiry := 0, fetchCount := 0 }

/-- `refreshJWKSCache` from part_018: return immediately when a cache exists
and `now < cacheExpiry`; otherwise fetch the JWKS document from `jwksURL`
(the `jwk.NewCache` register+refresh round trip is the `fetch` parameter),
propagate a fetch failure unchanged in state, and on success store the keys
with expiry `now + 3600` seconds (1 hour). -/
def refreshJWKSCache (s : CognitoSvc) (now : Int)
    (fetch : String → Except String KeySet) : Except String Unit × CognitoSvc :=
  if s.jwksCache.isSome ∧ now < s.cacheExpiry then (.ok (), s)
  else
    match fetch s.jwksURL with
    | .error e => (.error ("failed to refresh JWKS: " ++ e), s)
    | .ok keys =>
      (.ok (), { s with jwksCache := some keys, cacheExpiry := now + 3600,
                        fetchCount := s.fetchCount + 1 })

/- Interleaving model for concurrent calls to `refreshJWKSCache`. The Go
method guards nothing with a lock: the validity check reads the shared
fields, and the fetch-and-store writes them later. Each goroutine is
therefore modelled in two atomic phases — `checking` (the expiry test) and
`fetching` (the network fetch plus store) — an over-approximation of
atomicity that is generous to the code. -/

/-- Phase of one goroutine executing `refreshJWKSCache`. -/
inductive RPhase where
  | checking
  | fetching
  | done
deriving DecidableEq, Repr

/-- One scheduler step of the indicated phase against the shared state
(`now` fixed at the expiry boundary, `keys` the fetched document). -/
def refreshStep (now : Int) (keys : KeySet) (s : CognitoSvc) (p : RPhase) :
    CognitoSvc × RPhase :=
  match p with
  | .checking =>
    if s.jwksCache.isSome ∧ now < s.cacheExpiry then (s, .done) else (s, .fetching)
  | .fetching =>
    ({ s with jwksCache := some keys, cacheExpiry := now + 3600,
              fetchCount := s.fetchCount + 1 }, .done)
  | .done => (s, .done)

/-- Run a schedule (a list of goroutine indices) over the shared cache state
and the per-goroutine phases. -/
def runSched (now : Int) (keys : KeySet) :
    List Nat → CognitoSvc × List RPhase → CognitoSvc × List RPhase
  | [], st => st
  | tid :: rest, (s, ths) =>
    let p := ths.getD tid .done
    let (s', p') := refreshStep now keys s p
    runSched now keys rest (s', ths.set tid p')

/- ===== part_018: CognitoService.ValidateToken (Token Verifier) ===== -/

/-- A bearer token as seen through the lestrrat-go/jwx parsing boundary:
its structural well-formedness, whether its signature verifies against the
cached key set, and the claims the repository code reads afterwards. -/
structure ModelToken where
  wellFormed : Bool
  sigValid : Bool
  exp : Int
  iat : Int
  sub : String
  issuer : String
  tokenUse : Option String
  username : Option String
  email : Option String
  groups : Option (List String)
deriving DecidableEq, Repr

/-- Error classes of `jwt.Parse` from lestrrat-go/jwx. -/
inductive JwxErr where
  | parseError
  | sigError
  | expiredError
deriving DecidableEq, Repr

/-- Modelled library contract of jwx `jwt.Parse(token, jwt.WithKeySet(ks),
jwt.WithValidate(true))`: fails on a malformed token, on a signature that
does not verify against the key set, or on an expired token (validation);
otherwise yields the token. -/
def jwxParse (t : ModelToken) (now : Int) : Except JwxErr ModelToken :=
  if ¬t.wellFormed then .error .parseError
  else if ¬t.sigValid then .error .sigError
  else if t.exp < now then .error .expiredError
  else .ok t

/-- The expected issuer string computed in `CognitoService.ValidateToken`. -/
def expectedIssuer (region userPoolID : String) : String :=
  "https://cognito-idp." ++ region ++ ".amazonaws.com/" ++ userPoolID

/-- `CognitoService.ValidateToken` from part_018: refresh the JWKS cache
(failure is returned wrapped), parse-and-validate via jwx (every library
error collapses to `ErrInvalidToken`), check issuer and `token_use`
(each mismatch also `ErrInvalidToken`), then extract the claims; `isAdmin`
is derived from membership of "admin" in the groups claim. -/
def CognitoValidateToken (s : CognitoSvc) (now : Int)
    (fetch : String → Except String KeySet) (region userPoolID : String)
    (t : ModelToken) : Except AuthError Claims × CognitoSvc :=
  match refreshJWKSCache s now fetch with
  | (.error e, s') => (.error (.jwksRefreshFailed e), s')
  | (.ok _, s') =>
    match jwxParse t now with
    | .error _ => (.error .invalidToken, s')
    | .ok tk =>
      if tk.issuer ≠ expectedIssuer region userPoolID then (.error .invalidToken, s')
      else if tk.tokenUse ≠ some "access" then (.error .invalidToken, s')
      else
        let roles := tk.groups.getD []
        (.ok { userID := tk.sub, email := tk.email.getD "",
               username := tk.username.getD "", roles := roles,
               isAdmin := roles.contains "admin",
               issuedAt := tk.iat, expiresAt := tk.exp }, s')

/- ===== internal/auth/jwt.go: JWTService.ValidateToken ===== -/

/-- An HS256 token as seen through the golang-jwt parsing boundary, with the
map claims the repository code extracts. -/
structure HsToken where
  wellFormed : Bool
  methodHMAC : Bool
  sigValid : Bool
  user_id : Option String
  cEmail : Option String
  cUsername : Option String
  cRoles : Option (List String)
  is_admin : Option Bool
  iat : Option Int
  exp : Option Int
deriving DecidableEq, Repr

/-- Error classes of golang-jwt `jwt.Parse` the repository distinguishes:
`jwt.ErrTokenExpired` versus everything else. -/
inductive GoJwtErr where
  | tokenExpired
  | otherErr
deriving DecidableEq, Repr

/-- Modelled library contract of golang-jwt v5 `jwt.Parse` with the
repository's key function: fails on malformed tokens, on a non-HMAC signing
method (the key function refuses it), on a bad signature, and — with the
dedicated `ErrTokenExpired` class — on an `exp` claim in the past. -/
def goJwtParse (t : HsToken) (now : Int) : Except GoJwtErr HsToken :=
  if ¬t.wellFormed then .error .otherErr
  else if ¬t.methodHMAC then .error .otherErr
  else if ¬t.sigValid then .error .otherErr
  else
    match t.exp with
    | some e => if e < now then .error .tokenExpired else .ok t
    | none => .ok t

/-- `JWTService.ValidateToken` from internal/auth/jwt.go: map
`jwt.ErrTokenExpired` to `ErrExpiredToken` and every other parse failure to
`ErrInvalidToken`; a missing or non-string `user_id` claim is
`ErrInvalidToken`; the remaining claims default rather than fail. -/
def JWTValidateToken (t : HsToken) (now : Int) : Except AuthError Claims :=
  match goJwtParse t now with
  | .error .tokenExpired => .error .expiredToken
  | .error .otherErr => .error .invalidToken
  | .ok mc =>
    match mc.user_id with
    | none => .error .invalidToken
    | some uid =>
      .ok { userID := uid, email := mc.cEmail.getD "",
            username := mc.cUsername.getD "", roles := mc.cRoles.getD [],
            isAdmin := mc.is_admin.getD false, issuedAt := mc.iat.getD 0,
            expiresAt := mc.exp.getD 0 }

/- ===== internal/aws/auth.go: Signature Authenticator (SigV4-style) ===== -/

/-- Boolean prefix test on character lists (Go `strings.HasPrefix` on the
ASCII data involved here). -/
def isPfxOfList : List Char → List Char → Bool
  | [], _ => true
  | _ :: _, [] => false
  | a :: as, b :: bs => a == b && isPfxOfList as bs

/-- Go `strings.TrimPrefix`: drop the prefix when present, else return the
input unchanged. -/
def trimPfxList (p s : List Char) : List Char :=
  if isPfxOfList p s then s.drop p.length else s

/-- Go `strings.Split(s, ", ")`: split on each left-most occurrence of the
two-character separator `", "`. -/
def splitCommaSpace : List Char → List (List Char)
  | [] => [[]]
  | ',' :: ' ' :: rest => [] :: splitCommaSpace rest
  | c :: rest =>
    match splitCommaSpace rest with
    | [] => [[c]]
    | h :: t => (c :: h) :: t

/-- `parseAuthHeader` from internal/aws/auth.go, applied to the header with
its scheme already in place: trim the `"AWS4-HMAC-SHA256 "` tag, split on
`", "`, assign the `Credential=` / `SignedHeaders=` / `Signature=` parts
(last occurrence wins, as in the Go loop), and fail when any of the three
is empty. -/
def parseAuthHeader (authHeader : List Char) :
    Option (List Char × List Char × List Char) :=
  let trimmed := trimPfxList "AWS4-HMAC-SHA256 ".data authHeader
  let parts := splitCommaSpace trimmed
  let res := parts.foldl
    (fun (acc : List Char × List Char × List Char) part =>
      if isPfxOfList "Credential=".data part then
        (trimPfxList "Credential=".data part, acc.2.1, acc.2.2)
      else if isPfxOfList "SignedHeaders=".data part then
        (acc.1, trimPfxList "SignedHeaders=".data part, acc.2.2)
      else if isPfxOfList "Signature=".data part then
        (acc.1, acc.2.1, trimPfxList "Signature=".data part)
      else acc)
    ([], [], [])
  if res.1 = [] ∨ res.2.1 = [] ∨ res.2.2 = [] then none else some res

/-- Outcome of the IAM auth middleware handler: an `http.Error` rejection, a
runtime panic (the success log slices `signature[:16]`, which panics in Go
when the parsed signature is shorter than 16 bytes), or forwarding to the
wrapped handler. -/
inductive IamOutcome where
  | reject (status : Nat) (body : String)
  | panicked
  | accept
deriving DecidableEq, Repr

/-- The request fields `NewIAMAuthMiddleware` reads: the `Authorization` and
`X-Amz-Date` headers (a missing header reads as `""` via `Header.Get`). -/
structure SigRequest where
  authHeader : Option String
  dateHeader : Option String
deriving DecidableEq, Repr

/-- The handler body of `NewIAMAuthMiddleware` from internal/aws/auth.go.
`parseAmzDate` is the library boundary `time.Parse("20060102T150405Z", ·)`
(returning the parsed instant in seconds, `none` on a parse error) and
`now` the current time in seconds; `time.Since(t) > 15*time.Minute`
becomes `now - t > 900`. After the timestamp check the middleware logs and
forwards the request: no signature is ever recomputed or compared. -/
def IAMAuthMiddleware (r : SigRequest) (parseAmzDate : String → Option Int)
    (now : Int) : IamOutcome :=
  let authHeader := r.authHeader.getD ""
  if authHeader = "" then
    .reject 401 "\x7b\"error\":\"Missing AWS Authorization header\"\x7d"
  else if ¬ isPfxOfList "AWS4-HMAC-SHA256".data authHeader.data then
    .reject 401 "\x7b\"error\":\"Invalid authorization scheme. Expected AWS4-HMAC-SHA256\"\x7d"
  else
    match parseAuthHeader authHeader.data with
    | none => .reject 401 "\x7b\"error\":\"Invalid Authorization header format\"\x7d"
    | some (_cred, _signedHeaders, signature) =>
      let dateHeader := r.dateHeader.getD ""
      if dateHeader = "" then
        .reject 401 "\x7b\"error\":\"Missing X-Amz-Date header\"\x7d"
      else
        match parseAmzDate dateHeader with
        | none => .reject 401 "\x7b\"error\":\"Invalid X-Amz-Date format\"\x7d"
        | some timestamp =>
          if now - timestamp > 900 then
            .reject 401 "\x7b\"error\":\"Request timestamp too old\"\x7d"
          else if signature.length < 16 then .panicked
          else .accept

/-- `ComputeSignature` from internal/aws/auth.go: the 4-stage HMAC-SHA256
signing-key chain (date, region, service, `"aws4_request"`) seeded with
`"AWS4" + secretKey`, applied to the string to sign and hex-encoded. The
primitives `hmacSHA256` and `hex.EncodeToString` are parameters at the
crypto-library boundary. -/
def ComputeSignature (hmacSHA256 : String → String → String)
    (hexEncodeToString : String → String)
    (secretKey dateStamp region service stringToSign : String) : String :=
  let kDate := hmacSHA256 ("AWS4" ++ secretKey) dateStamp
  let kRegion := hmacSHA256 kDate region
  let kService := hmacSHA256 kRegion service
  let kSigning := hmacSHA256 kService "aws4_request"
  hexEncodeToString (hmacSHA256 kSigning stringToSign)

/- ===== Theorems for C5, C6, C7, C10 ===== -/

/-- C5: for every user with `isAdmin = true` and every permission `p`,
`HasPermission` returns `true`, independent of the contents of the user's
role list (the theorem quantifies over an arbitrary replacement role list). -/
theorem HasPermission_admin_short_circuit (u : User) (p : Permission)
    (rs : List String) (h : u.isAdmin = true) :
    User.HasPermission { u with roles := rs } p = true := by
  simp [User.HasPermission, h]

theorem HasPermission_admin_short_circuit_witness :
    ({ id := "1", email := "a@b", username := "a", roles := [], isAdmin := true } : User).isAdmin = true
    ∧ User.HasPermission
        { ({ id := "1", email := "a@b", username := "a", roles := [], isAdmin := true } : User)
          with roles := ["ghost"] } "items:delete" = true :=
  ⟨by decide,
   HasPermission_admin_short_circuit
     { id := "1", email := "a@b", username := "a", roles := [], isAdmin := true }
     "items:delete" ["ghost"] (by decide)⟩

/-- C6: `HasPermission` is monotonic in roles: appending a role to a user's
role list (all other fields unchanged) never removes a permission the user
already had. -/
theorem HasPermission_monotone_in_roles (u : User) (p : Permission) (r : String)
    (h : User.HasPermission u p = true) :
    User.HasPermission { u with roles := u.roles ++ [r] } p = true := by
  cases hA : u.isAdmin with
  | true => simp [User.HasPermission, hA]
  | false =>
    unfold User.HasPermission at h ⊢
    simp only [hA, Bool.false_eq_true, if_false] at h ⊢
    simp only [List.any_append, Bool.or_eq_true]
    exact Or.inl h

theorem HasPermission_monotone_in_roles_witness :
    User.HasPermission
      { ({ id := "1", email := "a@b", username := "a", roles := ["user"], isAdmin := false } : User)
        with roles := ["user"] ++ ["editor"] } "items:read" = true :=
  HasPermission_monotone_in_roles
    { id := "1", email := "a@b", username := "a", roles := ["user"], isAdmin := false }
    "items:read" "editor" (by decide)

/-- C7: for a non-admin user, `HasPermission u p` is true iff some role name
in `u.roles` resolves in the fixed registry to a permission list containing
`p` or containing the wildcard `"admin:*"`; and every role name outside the
registry (`"admin"`, `"editor"`, `"user"`) resolves to the empty permission
list rather than an error. -/
theorem HasPermission_nonadmin_iff (u : User) (p : Permission)
    (h : u.isAdmin = false) :
    (User.HasPermission u p = true ↔
      ∃ r ∈ u.roles, p ∈ GetRolePermissions r ∨ PermissionAdmin ∈ GetRolePermissions r)
    ∧ ∀ r : String, r ≠ "admin" → r ≠ "editor" → r ≠ "user" → GetRolePermissions r = [] := by
  refine ⟨?_, ?_⟩
  · unfold User.HasPermission
    rw [if_neg (by simp [h])]
    rw [List.any_eq_true]
    constructor
    · rintro ⟨r, hr, hin⟩
      rw [List.any_eq_true] at hin
      obtain ⟨q, hq, hqp⟩ := hin
      rw [Bool.or_eq_true, beq_iff_eq, beq_iff_eq] at hqp
      exact ⟨r, hr, hqp.elim (fun e => Or.inl (e ▸ hq)) (fun e => Or.inr (e ▸ hq))⟩
    · rintro ⟨r, hr, hqp⟩
      refine ⟨r, hr, ?_⟩
      rw [List.any_eq_true]
      cases hqp with
      | inl hp => exact ⟨p, hp, by simp⟩
      | inr hp => exact ⟨PermissionAdmin, hp, by simp⟩
  · intro r h1 h2 h3
    simp [GetRolePermissions, h1, h2, h3]

theorem HasPermission_nonadmin_iff_witness :
    (User.HasPermission
        { id := "1", email := "a@b", username := "a", roles := ["editor"], isAdmin := false }
        "items:write" = true ↔
      ∃ r ∈ ["editor"], "items:write" ∈ GetRolePermissions r
        ∨ PermissionAdmin ∈ GetRolePermissions r)
    ∧ ∀ r : String, r ≠ "admin" → r ≠ "editor" → r ≠ "user" → GetRolePermissions r = [] :=
  HasPermission_nonadmin_iff
    { id := "1", email := "a@b", username := "a", roles := ["editor"], isAdmin := false }
    "items:write" (by decide)

/-- C2 (refuted): with two goroutines at a cold-cache expiry boundary, the
interleaving in which both evaluate the `refreshJWKSCache` validity check
before either stores performs two network fetches — the method has no lock
or single-flight guard, so refreshes are not coalesced. A fully sequential
schedule of the same two callers performs one fetch. -/
theorem refreshJWKSCache_concurrent_double_fetch :
    (runSched 100 ["key"] [0, 1, 0, 1]
        (NewCognitoService "us-east-1" "pool", [.checking, .checking])).1.fetchCount = 2
    ∧ (runSched 100 ["key"] [0, 0, 1, 1]
        (NewCognitoService "us-east-1" "pool", [.checking, .checking])).1.fetchCount = 1 :=
  ⟨rfl, rfl⟩

/-- C4: `refreshJWKSCache` returns with no fetch and unchanged state whenever
a cached entry exists and `now < validUntil`; otherwise it fetches from the
service's JWKS URL — which `NewCognitoService` derives from the configured
region and pool id — and stores the keys with `validUntil = now + 3600`;
and a fetch failure whenever no valid cache exists — no entry at all, or an
entry past `validUntil` — surfaces as an error of the calling
`CognitoValidateToken` (fail-closed). -/
theorem refreshJWKSCache_contract :
    (∀ (s : CognitoSvc) (now : Int) (fetch : String → Except String KeySet) (ks : KeySet),
      s.jwksCache = some ks → now < s.cacheExpiry →
      refreshJWKSCache s now fetch = (.ok (), s))
    ∧ (∀ (s : CognitoSvc) (now : Int) (fetch : String → Except String KeySet) (ks : KeySet),
      ¬(s.jwksCache.isSome = true ∧ now < s.cacheExpiry) →
      fetch s.jwksURL = .ok ks →
      refreshJWKSCache s now fetch =
        (.ok (), { s with jwksCache := some ks, cacheExpiry := now + 3600,
                          fetchCount := s.fetchCount + 1 }))
    ∧ (∀ region userPoolID : String,
      (NewCognitoService region userPoolID).jwksURL =
        "https://cognito-idp." ++ region ++ ".amazonaws.com/" ++ userPoolID
          ++ "/.well-known/jwks.json")
    ∧ (∀ (s : CognitoSvc) (now : Int) (fetch : String → Except String KeySet)
        (e : String) (region userPoolID : String) (t : ModelToken),
      ¬(s.jwksCache.isSome = true ∧ now < s.cacheExpiry) → fetch s.jwksURL = .error e →
      (CognitoValidateToken s now fetch region userPoolID t).1 =
        .error (.jwksRefreshFailed ("failed to refresh JWKS: " ++ e))) := by
  refine ⟨fun s now fetch ks h1 h2 => ?_, fun s now fetch ks h1 h2 => ?_,
          fun region userPoolID => rfl, fun s now fetch e region userPoolID t h1 h2 => ?_⟩
  · unfold refreshJWKSCache
    rw [if_pos ⟨by simp [h1], h2⟩]
  · unfold refreshJWKSCache
    rw [if_neg h1, h2]
  · unfold CognitoValidateToken refreshJWKSCache
    rw [if_neg h1, h2]

theorem refreshJWKSCache_contract_witness :
    refreshJWKSCache ⟨"u", some ["k"], 10, 0⟩ 5 (fun _ => .ok ["k2"]) =
      (.ok (), ⟨"u", some ["k"], 10, 0⟩)
    ∧ refreshJWKSCache ⟨"u", none, 0, 0⟩ 5 (fun _ => .ok ["k2"]) =
      (.ok (), (⟨"u", some ["k2"], (5 : Int) + 3600, 0 + 1⟩ : CognitoSvc))
    ∧ (CognitoValidateToken ⟨"u", some ["k"], 10, 0⟩ 50 (fun _ => .error "net") "r" "p"
        ⟨true, true, 100, 0, "s", "i", some "access", none, none, none⟩).1 =
      .error (.jwksRefreshFailed ("failed to refresh JWKS: " ++ "net")) :=
  ⟨refreshJWKSCache_contract.1 ⟨"u", some ["k"], 10, 0⟩ 5 (fun _ => .ok ["k2"]) ["k"]
     rfl (by decide),
   refreshJWKSCache_contract.2.1 ⟨"u", none, 0, 0⟩ 5 (fun _ => .ok ["k2"]) ["k2"]
     (by decide) rfl,
   refreshJWKSCache_contract.2.2.2 ⟨"u", some ["k"], 10, 0⟩ 50 (fun _ => .error "net")
     "net" "r" "p"
     ⟨true, true, 100, 0, "s", "i", some "access", none, none, none⟩ (by decide) rfl⟩

/-- C3 (refuted as stated): a structurally valid, correctly signed token whose
`expiresAt` (50) lies before `now` (100) is mapped by the wired token
verifier `CognitoValidateToken` to the generic `invalidToken` error, not to
the distinct `expiredToken` error. -/
theorem CognitoValidateToken_expired_counterexample :
    (CognitoValidateToken ⟨"u", some ["k"], 1000, 0⟩ 100 (fun _ => .ok ["k"]) "r" "p"
        ⟨true, true, 50, 0, "sub", expectedIssuer "r" "p", some "access",
         none, none, none⟩).1 = .error AuthError.invalidToken
    ∧ AuthError.invalidToken ≠ AuthError.expiredToken := by
  exact ⟨rfl, by decide⟩

/-- C3 (amended): the Cognito token verifier collapses every token failure —
including expiry — to the generic `invalidToken` error, while the
`JWTService` verifier maps an expired token to `expiredToken`, a value
distinct from `invalidToken`. -/
theorem ValidateToken_expired_error_mapping :
    (∀ (s : CognitoSvc) (now : Int) (fetch : String → Except String KeySet)
       (region userPoolID : String) (t : ModelToken) (ks : KeySet),
      s.jwksCache = some ks → now < s.cacheExpiry → t.exp < now →
      (CognitoValidateToken s now fetch region userPoolID t).1 = .error .invalidToken)
    ∧ (∀ (t : HsToken) (now e : Int),
      t.wellFormed = true → t.methodHMAC = true → t.sigValid = true →
      t.exp = some e → e < now →
      JWTValidateToken t now = .error .expiredToken)
    ∧ AuthError.expiredToken ≠ AuthError.invalidToken := by
  refine ⟨fun s now fetch region userPoolID t ks h1 h2 h3 => ?_,
          fun t now e h1 h2 h3 h4 h5 => ?_, by decide⟩
  · have hrefresh : refreshJWKSCache s now fetch = (.ok (), s) := by
      unfold refreshJWKSCache
      rw [if_pos ⟨by simp [h1], h2⟩]
    have hparse : ∃ err, jwxParse t now = .error err := by
      unfold jwxParse
      by_cases hw : t.wellFormed
      · by_cases hs : t.sigValid
        · exact ⟨.expiredError, by rw [if_neg (by simp [hw]), if_neg (by simp [hs]),
            if_pos h3]⟩
        · exact ⟨.sigError, by rw [if_neg (by simp [hw]), if_pos (by simp [hs])]⟩
      · exact ⟨.parseError, by rw [if_pos (by simp [hw])]⟩
    obtain ⟨err, herr⟩ := hparse
    unfold CognitoValidateToken
    rw [hrefresh, herr]
  · unfold JWTValidateToken goJwtParse
    rw [if_neg (by simp [h1]), if_neg (by simp [h2]), if_neg (by simp [h3]), h4]
    simp [h5]

theorem ValidateToken_expired_error_mapping_witness :
    (CognitoValidateToken ⟨"u", some ["k"], 1000, 0⟩ 100 (fun _ => .ok ["k"]) "r" "p"
        ⟨true, true, 50, 0, "sub", "i", some "access", none, none, none⟩).1 =
      .error .invalidToken
    ∧ JWTValidateToken
        ⟨true, true, true, some "uid", none, none, none, none, some 0, some 50⟩ 100 =
      .error .expiredToken :=
  ⟨ValidateToken_expired_error_mapping.1 ⟨"u", some ["k"], 1000, 0⟩ 100
     (fun _ => .ok ["k"]) "r" "p"
     ⟨true, true, 50, 0, "sub", "i", some "access", none, none, none⟩ ["k"]
     rfl (by decide) (by decide),
   ValidateToken_expired_error_mapping.2.1
     ⟨true, true, true, some "uid", none, none, none, none, some 0, some 50⟩ 100 50
     rfl rfl rfl rfl (by decide)⟩

theorem mk_data_eq (s : String) : String.mk s.data = s := by
  cases s
  rfl

theorem data_append_space (s t : String) :
    (s ++ " " ++ t).data = s.data ++ ' ' :: t.data := by
  rw [String.data_append, String.data_append,
    show (" " : String).data = [' '] from rfl, List.append_assoc]
  rfl

theorem breakAtSpace_sound :
    ∀ {l a b : List Char}, breakAtSpace l = some (a, b) → l = a ++ ' ' :: b ∧ ' ' ∉ a := by
  intro l
  induction l with
  | nil => intro a b h; simp [breakAtSpace] at h
  | cons c rest ih =>
    intro a b h
    unfold breakAtSpace at h
    by_cases hc : c = ' '
    · rw [if_pos hc] at h
      obtain ⟨rfl, rfl⟩ : a = [] ∧ b = rest := by
        cases h
        exact ⟨rfl, rfl⟩
      exact ⟨by simp [hc], by simp⟩
    · rw [if_neg hc] at h
      cases hbr : breakAtSpace rest with
      | none => rw [hbr] at h; cases h
      | some p =>
        obtain ⟨a', b'⟩ := p
        rw [hbr] at h
        obtain ⟨rfl, rfl⟩ : a = c :: a' ∧ b = b' := by
          cases h
          exact ⟨rfl, rfl⟩
        obtain ⟨hrest, hna⟩ := ih hbr
        refine ⟨by rw [hrest]; rfl, ?_⟩
        intro hmem
        cases hmem with
        | head => exact hc rfl
        | tail _ hmem => exact hna hmem

theorem breakAtSpace_of_append :
    ∀ {s : List Char} (t : List Char), ' ' ∉ s → breakAtSpace (s ++ ' ' :: t) = some (s, t) := by
  intro s
  induction s with
  | nil => intro t _; simp [breakAtSpace]
  | cons c rest ih =>
    intro t hns
    have hc : ¬(c = ' ') := fun h => hns (h ▸ List.mem_cons_self c rest)
    have hrest : ' ' ∉ rest := fun h => hns (List.mem_cons_of_mem c h)
    rw [List.cons_append]
    simp [breakAtSpace, hc, ih t hrest]

theorem goSplitN2_no_space (h : String) (hn : breakAtSpace h.data = none) :
    goSplitN2 h = [h] := by
  unfold goSplitN2
  rw [hn]

theorem goSplitN2_append (scheme t : String) (hs : ' ' ∉ scheme.data) :
    goSplitN2 (scheme ++ " " ++ t) = [scheme, t] := by
  unfold goSplitN2
  rw [data_append_space, breakAtSpace_of_append t.data hs]

theorem Authenticate_eval_two (validate : String → Except AuthError Claims)
    (scheme token h : String) (hne : h ≠ "") (hsplit : goSplitN2 h = [scheme, token]) :
    Authenticate validate (some h) =
      (if lowerStr scheme ≠ "bearer" then
        .reject 401 "Unauthorized: invalid authorization header format"
      else
        match validate token with
        | .error _ => .reject 401 "Unauthorized: invalid token"
        | .ok claims =>
          .proceed { id := claims.userID, email := claims.email,
                     username := claims.username, roles := claims.roles,
                     isAdmin := claims.isAdmin }) := by
  unfold Authenticate
  simp only [Option.getD_some]
  rw [if_neg hne, hsplit]

/-- C8: the bearer request authenticator rejects with 401 and the
"missing authorization header" message when the `Authorization` header is
absent; rejects with 401 and the "invalid authorization header format"
message for every non-empty header not of the form `Bearer <token>`
(case-insensitive scheme, single space separator); and rejects with 401 and
the constant "invalid token" message for every token failing verification —
the same message for every verification error value, so the client cannot
tell expired from malformed from wrong-issuer. -/
theorem Authenticate_rejections :
    (∀ validate : String → Except AuthError Claims,
      Authenticate validate none = .reject 401 "Unauthorized: missing authorization header")
    ∧ (∀ (validate : String → Except AuthError Claims) (h : String),
      h ≠ "" → ¬ bearerHeaderForm h →
      Authenticate validate (some h) =
        .reject 401 "Unauthorized: invalid authorization header format")
    ∧ (∀ (validate : String → Except AuthError Claims) (scheme token : String) (e : AuthError),
      (' ' ∉ scheme.data) → lowerStr scheme = "bearer" →
      validate token = .error e →
      Authenticate validate (some (scheme ++ " " ++ token)) =
        .reject 401 "Unauthorized: invalid token") := by
  refine ⟨fun validate => rfl, fun validate h hne hnb => ?_, fun validate scheme token e hs hlow hv => ?_⟩
  · cases hb : breakAtSpace h.data with
    | none =>
      unfold Authenticate
      simp only [Option.getD_some]
      rw [if_neg hne, goSplitN2_no_space h hb]
    | some p =>
      obtain ⟨a, b⟩ := p
      obtain ⟨hdec, hnsp⟩ := breakAtSpace_sound hb
      have hsplit : goSplitN2 h = [String.mk a, String.mk b] := by
        unfold goSplitN2
        rw [hb]
      have hlow : lowerStr (String.mk a) ≠ "bearer" := by
        intro hl
        apply hnb
        refine ⟨String.mk a, String.mk b, ?_, hnsp, hl⟩
        apply String.ext
        rw [data_append_space]
        exact hdec
      rw [Authenticate_eval_two validate (String.mk a) (String.mk b) h hne hsplit,
        if_pos hlow]
  · have hne : scheme ++ " " ++ token ≠ "" := by
      intro h0
      have hd := congrArg String.data h0
      rw [data_append_space] at hd
      simp at hd
    rw [Authenticate_eval_two validate scheme token _ hne (goSplitN2_append scheme token hs),
      if_neg (by simp [hlow]), hv]

theorem Authenticate_rejections_witness :
    Authenticate (fun _ => .error .invalidToken) none =
      .reject 401 "Unauthorized: missing authorization header"
    ∧ Authenticate (fun _ => .error .invalidToken) (some "Basicabc") =
      .reject 401 "Unauthorized: invalid authorization header format"
    ∧ Authenticate (fun _ => .error .invalidToken) (some ("Bearer" ++ " " ++ "tok")) =
      .reject 401 "Unauthorized: invalid token" :=
  ⟨Authenticate_rejections.1 (fun _ => .error .invalidToken),
   Authenticate_rejections.2.1 (fun _ => .error .invalidToken) "Basicabc" (by decide)
     (fun ⟨_, _, heq, _, _⟩ => by
       have hd := congrArg String.data heq
       rw [data_append_space] at hd
       have hmem : ' ' ∈ "Basicabc".data := by
         rw [hd]
         exact List.mem_append_right _ (List.mem_cons_self _ _)
       exact absurd hmem (by decide)),
   Authenticate_rejections.2.2 (fun _ => .error .invalidToken) "Bearer" "tok" .invalidToken
     (by decide) (by decide) rfl⟩

theorem IAMAuth_eval (pd : String → Option Int) (a d : String)
    (cred sh sg : List Char) (ts now : Int) (ha : a ≠ "")
    (hpfx : isPfxOfList "AWS4-HMAC-SHA256".data a.data = true)
    (hparse : parseAuthHeader a.data = some (cred, sh, sg))
    (hd : d ≠ "") (hts : pd d = some ts) :
    IAMAuthMiddleware ⟨some a, some d⟩ pd now =
      (if now - ts > 900 then
        .reject 401 "\x7b\"error\":\"Request timestamp too old\"\x7d"
      else if sg.length < 16 then .panicked else .accept) := by
  unfold IAMAuthMiddleware
  simp only [Option.getD_some]
  rw [if_neg ha, if_neg (by simp [hpfx]), hparse]
  simp only []
  rw [if_neg hd, hts]

/-- C9: for a request with a well-formed signature authorization header and a
parseable timestamp header, the middleware rejects 401 ("Request timestamp
too old") whenever `now - timestamp > 15 minutes`; and a request replayed
verbatim (identical headers, identical signature) is accepted at any later
time still within the window — acceptance depends only on the request and
the clock, with no nonce tracking. -/
theorem IAMAuth_replay_window (pd : String → Option Int) (a d : String)
    (cred sh sg : List Char) (ts now now2 : Int)
    (hpfx : isPfxOfList "AWS4-HMAC-SHA256".data a.data = true)
    (hparse : parseAuthHeader a.data = some (cred, sh, sg))
    (hd : d ≠ "") (hts : pd d = some ts) :
    (now - ts > 900 →
      IAMAuthMiddleware ⟨some a, some d⟩ pd now =
        .reject 401 "\x7b\"error\":\"Request timestamp too old\"\x7d")
    ∧ (IAMAuthMiddleware ⟨some a, some d⟩ pd now = .accept →
      now2 - ts ≤ 900 →
      IAMAuthMiddleware ⟨some a, some d⟩ pd now2 = .accept) := by
  have ha : a ≠ "" := by
    intro h0
    rw [h0] at hpfx
    exact absurd hpfx (by decide)
  constructor
  · intro hold
    rw [IAMAuth_eval pd a d cred sh sg ts now ha hpfx hparse hd hts, if_pos hold]
  · intro hacc hwin
    rw [IAMAuth_eval pd a d cred sh sg ts now ha hpfx hparse hd hts] at hacc
    rw [IAMAuth_eval pd a d cred sh sg ts now2 ha hpfx hparse hd hts,
      if_neg (by omega)]
    by_cases hA : now - ts > 900
    · rw [if_pos hA] at hacc
      exact absurd hacc (by simp)
    · rw [if_neg hA] at hacc
      by_cases hsg : sg.length < 16
      · rw [if_pos hsg] at hacc
        exact absurd hacc (by simp)
      · rw [if_neg hsg]

theorem IAMAuth_replay_window_witness :
    IAMAuthMiddleware
      ⟨some "AWS4-HMAC-SHA256 Credential=AKIDEXAMPLE/20250101/us-east-1/execute-api/aws4_request, SignedHeaders=host;x-amz-date, Signature=0123456789abcdef0123456789abcdef",
       some "20250101T000000Z"⟩ (fun _ => some 0) 1000 =
      .reject 401 "\x7b\"error\":\"Request timestamp too old\"\x7d"
    ∧ IAMAuthMiddleware
      ⟨some "AWS4-HMAC-SHA256 Credential=AKIDEXAMPLE/20250101/us-east-1/execute-api/aws4_request, SignedHeaders=host;x-amz-date, Signature=0123456789abcdef0123456789abcdef",
       some "20250101T000000Z"⟩ (fun _ => some 0) 900 = .accept :=
  ⟨(IAMAuth_replay_window (fun _ => some 0)
      "AWS4-HMAC-SHA256 Credential=AKIDEXAMPLE/20250101/us-east-1/execute-api/aws4_request, SignedHeaders=host;x-amz-date, Signature=0123456789abcdef0123456789abcdef"
      "20250101T000000Z"
      "AKIDEXAMPLE/20250101/us-east-1/execute-api/aws4_request".data
      "host;x-amz-date".data "0123456789abcdef0123456789abcdef".data
      0 1000 0 (by decide) (by decide) (by decide) rfl).1 (by decide),
   (IAMAuth_replay_window (fun _ => some 0)
      "AWS4-HMAC-SHA256 Credential=AKIDEXAMPLE/20250101/us-east-1/execute-api/aws4_request, SignedHeaders=host;x-amz-date, Signature=0123456789abcdef0123456789abcdef"
      "20250101T000000Z"
      "AKIDEXAMPLE/20250101/us-east-1/execute-api/aws4_request".data
      "host;x-amz-date".data "0123456789abcdef0123456789abcdef".data
      0 0 900 (by decide) (by decide) (by decide) rfl).2 (by decide) (by decide)⟩

/-- C1 (refuted): the signature authenticator never recomputes or compares
the signature. Two requests identical except for their `Signature=` values
are both accepted within the replay window, so for every signature the
4-stage HMAC chain `ComputeSignature` could recompute — whatever the
secret, credential scope or canonical request string — at least one of
the two accepted requests carries a provided signature that differs from
it, yet is not rejected with 401. -/
theorem ComputeSignature_never_checked :
    ∀ (hmacSHA256 : String → String → String) (hexEncodeToString : String → String)
      (secretKey dateStamp region service stringToSign : String),
      IAMAuthMiddleware
        ⟨some "AWS4-HMAC-SHA256 Credential=AKIDEXAMPLE/20250101/us-east-1/execute-api/aws4_request, SignedHeaders=host;x-amz-date, Signature=aaaaaaaaaaaaaaaa",
         some "20250101T000000Z"⟩ (fun _ => some 0) 0 = .accept
      ∧ IAMAuthMiddleware
        ⟨some "AWS4-HMAC-SHA256 Credential=AKIDEXAMPLE/20250101/us-east-1/execute-api/aws4_request, SignedHeaders=host;x-amz-date, Signature=bbbbbbbbbbbbbbbb",
         some "20250101T000000Z"⟩ (fun _ => some 0) 0 = .accept
      ∧ (("aaaaaaaaaaaaaaaa" : String) ≠
          ComputeSignature hmacSHA256 hexEncodeToString secretKey dateStamp region service stringToSign
        ∨ ("bbbbbbbbbbbbbbbb" : String) ≠
          ComputeSignature hmacSHA256 hexEncodeToString secretKey dateStamp region service stringToSign) := by
  intro hmacSHA256 hexEncodeToString secretKey dateStamp region service stringToSign
  refine ⟨by decide, by decide, ?_⟩
  by_cases hA : ("aaaaaaaaaaaaaaaa" : String) =
      ComputeSignature hmacSHA256 hexEncodeToString secretKey dateStamp region service stringToSign
  · right
    rw [← hA]
    decide
  · left
    exact hA

/-- C10: `GetUser` after `WithUser` with a non-nil user returns exactly that
user; `GetUser` on a context with no value under the user key, or after
`WithUser` with a nil user pointer, returns `ErrNoUserInContext`. -/
theorem GetUser_WithUser_roundtrip :
    (∀ (ctx : GoContext) (u : User), GetUser (WithUser ctx (some u)) = .ok u)
    ∧ (∀ ctx : GoContext, contextValue ctx userContextKey = none →
        GetUser ctx = .error ErrNoUserInContext)
    ∧ (∀ ctx : GoContext, GetUser (WithUser ctx none) = .error ErrNoUserInContext) := by
  refine ⟨fun ctx u => ?_, fun ctx h => ?_, fun ctx => ?_⟩
  · simp [GetUser, WithUser, contextWithValue, contextValue]
  · simp [GetUser, h]
  · simp [GetUser, WithUser, contextWithValue, contextValue]

theorem GetUser_WithUser_roundtrip_witness :
    GetUser (WithUser [] (some ⟨"1", "a@b", "a", [], false⟩)) =
      .ok (⟨"1", "a@b", "a", [], false⟩ : User)
    ∧ GetUser [] = .error ErrNoUserInContext
    ∧ GetUser (WithUser [] none) = .error ErrNoUserInContext :=
  ⟨GetUser_WithUser_roundtrip.1 [] ⟨"1", "a@b", "a", [], false⟩,
   GetUser_WithUser_roundtrip.2.1 [] rfl,
   GetUser_WithUser_roundtrip.2.2 []⟩
